import Mathlib

/-!
# Verification of the Flask countries REST API (`app.py`)

A shallow embedding of the handlers in `app.py`: the in-memory store is a
list of records, a record is a Python dict modelled as an association list
of string keys and JSON values (its entries have pairwise distinct keys,
exactly as a Python dict obtained from decoding JSON), and each Flask
handler becomes a pure function from the current store (plus the decoded
request data) to an HTTP outcome carrying the store after the request.
A Flask `abort(code)` and every uncaught Python exception are rendered by
the registered error handler `handle_exception` as an error response, so
both are modelled as the `err` outcome (an uncaught exception carries
status 500).
-/

/-- A decoded JSON scalar value as it appears in the payloads and records of
`app.py`: the `name`/`capital` fields hold strings and `id`/`area` hold
numbers. -/
inductive Value where
  | str (s : String)
  | num (n : Int)
deriving DecidableEq, Repr

/-- A Python dict decoded from a JSON object: an ordered association list of
key/value entries (insertion order, pairwise distinct keys). -/
abbrev Dict := List (String × Value)

/-- The global `countries` list: an ordered list of record dicts. -/
abbrev Store := List Dict

/-- `d.keys()` of a Python dict: the keys in insertion order. -/
def keysOf (d : Dict) : List String := d.map Prod.fst

/-- `d[k]` / `k in d`: first (only, for a genuine dict) binding of `k`. -/
def dlookup : Dict → String → Option Value
  | [], _ => none
  | (k', v) :: rest, k => if k' = k then some v else dlookup rest k

/-- `d[k] = v` on a Python dict: overwrite the existing binding in place
(keeping its position) or append a fresh binding at the end. -/
def dictSet : Dict → String → Value → Dict
  | [], k, v => [(k, v)]
  | (k', v') :: rest, k, v =>
    if k' = k then (k', v) :: rest else (k', v') :: dictSet rest k v

/-- The outcome of one HTTP request: a successful response
(`ok status body newStore`) or an error response rendered by
`handle_exception` (`err status storeAfter`), where the store after the
request is carried in both cases. -/
inductive HResp where
  | ok (status : Nat) (body : Dict) (store : Store)
  | err (status : Nat) (store : Store)
deriving DecidableEq, Repr

/-- The tuple `expected_payload_attributes = ("name", "capital", "area")`
from `add_country`, `put_country` and `patch_country`. -/
def expectedAttrs : List String := ["name", "capital", "area"]

/-- The loop `for key in request.json: if key not in
expected_payload_attributes: abort(422)` succeeds precisely when every
payload key is recognized. -/
def keysOk (p : Dict) : Bool :=
  p.all fun kv => expectedAttrs.contains kv.1

/-- Per-property type constraints of the `schema` JSON schema in `app.py`:
`name` and `capital` must be strings and `area` a number when present;
keys outside the schema's `properties` are unconstrained. -/
def typeOk (k : String) (v : Value) : Bool :=
  if k = "name" then match v with | .str _ => true | .num _ => false
  else if k = "capital" then match v with | .str _ => true | .num _ => false
  else if k = "area" then match v with | .num _ => true | .str _ => false
  else true

/-- The `schema` validation performed by the `@expects_json(schema)`
decorator on `add_country`: every present property is well-typed and the
required properties `name` and `capital` are present. -/
def schemaOk (p : Dict) : Bool :=
  (p.all fun kv => typeOk kv.1 kv.2)
    && (dlookup p "name").isSome && (dlookup p "capital").isSome

/-- `country["id"]` read as an integer: `some n` when the record has an
`"id"` key bound to the number `n`. -/
def recIdNum (r : Dict) : Option Value :=
  dlookup r "id"

/-- The integer ids of the store's records, `some ids` only when every
record has an `"id"` key bound to a number — otherwise the generator
expression `country["id"] for country in countries` (or the later
`max(...) + 1`) raises in Python. -/
def idsOf? : Store → Option (List Int)
  | [] => some []
  | r :: rest =>
    match dlookup r "id", idsOf? rest with
    | some (Value.num n), some ns => some (n :: ns)
    | _, _ => none

/-- Python `max` over a nonempty list, folded from the first element. -/
def maxAll : Int → List Int → Int
  | x, [] => x
  | x, y :: ys => maxAll (max x y) ys

/-- `_find_next_id()`:
`max(country["id"] for country in countries) + 1`. `none` models the raised
exception when the store is empty or some record is missing an integer
`"id"`. -/
def _find_next_id (store : Store) : Option Int :=
  match idsOf? store with
  | some [] => none
  | some (x :: xs) => some (maxAll x xs + 1)
  | none => none

/-- `max(existing ids)` of the store, defined on stores where
`_find_next_id` succeeds. -/
def maxId (store : Store) : Int :=
  match idsOf? store with
  | some (x :: xs) => maxAll x xs
  | _ => 0

/-- `GET /countries` (`get_countries`): return the whole store. -/
def get_countries (store : Store) : Store := store

/-- `GET /country` (`get_country`): `jsonify(countries[1])` — the record at
fixed index 1, an IndexError (500) when the store has fewer than two
records. -/
def get_country (store : Store) : HResp :=
  match store with
  | _ :: r1 :: _ => .ok 200 r1 store
  | _ => .err 500 store

/-- Result of the linear scan `for i in range(len(countries)): if
countries[i]["id"] == int(parm_id)` shared by the id-parameterized
handlers: index of the first match, no match, or a KeyError raised by a
record with no `"id"` key reached before any match. -/
inductive ScanRes where
  | found (i : Nat)
  | notFound
  | keyError
deriving DecidableEq, Repr

/-- The scan itself, in store order. A record whose `"id"` value is not
equal to the requested number (including a value of a different type, where
Python `==` is simply false) is skipped. -/
def scanId : Store → Int → ScanRes
  | [], _ => .notFound
  | r :: rest, pid =>
    match dlookup r "id" with
    | none => .keyError
    | some v =>
      if v = Value.num pid then .found 0
      else
        match scanId rest pid with
        | .found i => .found (i + 1)
        | .notFound => .notFound
        | .keyError => .keyError

/-- `POST /countries` (`add_country`), on a decoded JSON-object payload.
In source order: the `@expects_json(schema)` decorator (400 on schema
violation), the 422 unknown-key loop, the attribute-count check against
`len(countries[0].keys())` (IndexError → 500 on an empty store, else 400 on
a count mismatch), then `country["id"] = _find_next_id()` (exception → 500
on failure) and `countries.append(country)` with a 201 response. -/
def add_country (store : Store) (payload : Dict) : HResp :=
  if schemaOk payload then
    if keysOk payload then
      match store with
      | [] => .err 500 store
      | r0 :: _ =>
        if payload.length + 1 ≠ r0.length then .err 400 store
        else
          match _find_next_id store with
          | none => .err 500 store
          | some nid =>
            let c := dictSet payload "id" (Value.num nid)
            .ok 201 c (store ++ [c])
    else .err 422 store
  else .err 400 store

/-- `for key in payload: countries[i][key] = payload[key]` — the in-place
field merge shared by `put_country` and `patch_country`. -/
def applyPayload (r : Dict) (p : Dict) : Dict :=
  p.foldl (fun acc kv => dictSet acc kv.1 kv.2) r

/-- `PUT /countries/<parm_id>` (`put_country`): the 422 unknown-key loop,
the exact attribute-count check against `len(countries[0].keys())`
(IndexError → 500 on an empty store, 400 on mismatch), then the linear scan
with in-place merge and a 200 response, or 404 when no record matches. -/
def put_country (store : Store) (pid : Int) (payload : Dict) : HResp :=
  if keysOk payload then
    match store with
    | [] => .err 500 store
    | r0 :: _ =>
      if payload.length + 1 ≠ r0.length then .err 400 store
      else
        match scanId store pid with
        | .found i =>
          let updated := applyPayload (store.getD i []) payload
          .ok 200 updated (store.set i updated)
        | .notFound => .err 404 store
        | .keyError => .err 500 store
  else .err 422 store

/-- `PATCH /countries/<parm_id>` (`patch_country`): as `put_country` except
the count check rejects only when `len(payload) + 1 >
len(countries[0].keys())`. -/
def patch_country (store : Store) (pid : Int) (payload : Dict) : HResp :=
  if keysOk payload then
    match store with
    | [] => .err 500 store
    | r0 :: _ =>
      if payload.length + 1 > r0.length then .err 400 store
      else
        match scanId store pid with
        | .found i =>
          let updated := applyPayload (store.getD i []) payload
          .ok 200 updated (store.set i updated)
        | .notFound => .err 404 store
        | .keyError => .err 500 store
  else .err 422 store

/-- `GET /countries/<parm_id>` (`get_country_by_id`): linear scan, 200 with
the first matching record or 404. -/
def get_country_by_id (store : Store) (pid : Int) : HResp :=
  match scanId store pid with
  | .found i => .ok 200 (store.getD i []) store
  | .notFound => .err 404 store
  | .keyError => .err 500 store

/-- `DELETE /countries/<parm_id>` (`delete_country`): linear scan,
`del countries[i]` on the first match with `{}, 204`, or 404. -/
def delete_country (store : Store) (pid : Int) : HResp :=
  match scanId store pid with
  | .found i => .ok 204 [] (store.eraseIdx i)
  | .notFound => .err 404 store
  | .keyError => .err 500 store

/-- A POST request at transport level: a body that is not a decoded JSON
object is rejected before the handler body runs (415 unsupported media
type / malformed body, raised by `request.get_json()` under
`@expects_json`). -/
def postReq (store : Store) (body : Option Dict) : HResp :=
  match body with
  | none => .err 415 store
  | some p => add_country store p

/-- A PUT request at transport level: non-JSON body rejected by
`request.json` before any handler logic. -/
def putReq (store : Store) (pid : Int) (body : Option Dict) : HResp :=
  match body with
  | none => .err 415 store
  | some p => put_country store pid p

/-- A PATCH request at transport level: non-JSON body rejected by
`request.json` before any handler logic. -/
def patchReq (store : Store) (pid : Int) (body : Option Dict) : HResp :=
  match body with
  | none => .err 415 store
  | some p => patch_country store pid p

/-- The seed `countries` list from `app.py`. -/
def seedCountries : Store :=
  [ [("id", Value.num 1), ("name", Value.str "Thailand"),
     ("capital", Value.str "Bangkok"), ("area", Value.num 513120)],
    [("id", Value.num 2), ("name", Value.str "Australia"),
     ("capital", Value.str "Canberra"), ("area", Value.num 7617930)],
    [("id", Value.num 3), ("name", Value.str "Egypt"),
     ("capital", Value.str "Cairo"), ("area", Value.num 1010408)] ]

/-- The Germany payload of the spec's worked example. -/
def germanyPayload : Dict :=
  [("name", Value.str "Germany"), ("capital", Value.str "Berlin"),
   ("area", Value.num 357022)]

/-- The record created by the example POST: the payload with the
server-assigned id appended, as Python dict insertion order dictates. -/
def germanyRecord : Dict :=
  [("name", Value.str "Germany"), ("capital", Value.str "Berlin"),
   ("area", Value.num 357022), ("id", Value.num 4)]

/-- Well-formedness of a store as maintained by the application: nonempty,
the first record has the four canonical fields, and every record carries an
integer `"id"`. Holds for the seed store and is preserved by the handlers. -/
def WFStore (s : Store) : Prop :=
  s ≠ [] ∧ (s.headD []).length = 4 ∧
    ∀ r ∈ s, ∃ n : Int, dlookup r "id" = some (Value.num n)

instance : DecidablePred WFStore := fun s => by
  unfold WFStore
  have : ∀ r : Dict, Decidable (∃ n : Int, dlookup r "id" = some (Value.num n)) := by
    intro r
    match h : dlookup r "id" with
    | some (Value.num n) => exact isTrue ⟨n, rfl⟩
    | some (Value.str a) => exact isFalse (by rintro ⟨n, hn⟩; cases hn)
    | none => exact isFalse (by rintro ⟨n, hn⟩; cases hn)
  exact instDecidableAnd

/-- The extraction function underlying `idsUnique` and `idsOf?`:
the integer `"id"` of a record, when it has one. -/
def recIdInt (r : Dict) : Option Int :=
  match dlookup r "id" with
  | some (Value.num n) => some n
  | _ => none

/-- The invariant that `id` is unique across the store: the list of integer
`"id"` values of the records has no duplicate. -/
def idsUnique (s : Store) : Prop :=
  (s.filterMap recIdInt).Nodup

instance : DecidablePred idsUnique := fun s => by
  unfold idsUnique; exact List.nodupDecidable _

/-- Whether a record matches the scanned id, as the Python comparison
`countries[i]["id"] == int(parm_id)` does. -/
def matchesId (pid : Int) (r : Dict) : Bool :=
  decide (dlookup r "id" = some (Value.num pid))

section Helpers

theorem keysOk_iff {p : Dict} :
    keysOk p = true ↔ ∀ kv ∈ p, kv.1 ∈ expectedAttrs := by
  unfold keysOk
  rw [List.all_eq_true]
  constructor
  · intro h kv hkv
    have := h kv hkv
    simpa using this
  · intro h kv hkv
    simpa using h kv hkv

theorem mem_of_dlookup {r : Dict} {k : String} {v : Value}
    (h : dlookup r k = some v) : (k, v) ∈ r := by
  induction r with
  | nil => cases h
  | cons kv rest ih =>
    obtain ⟨k', v'⟩ := kv
    by_cases hk : k' = k
    · subst hk
      simp [dlookup] at h
      subst h
      exact List.mem_cons_self _ _
    · simp [dlookup, hk] at h
      exact List.mem_cons_of_mem _ (ih h)

theorem keysOk_false_of_id {p : Dict} (h : (dlookup p "id").isSome = true) :
    keysOk p = false := by
  obtain ⟨v, hv⟩ := Option.isSome_iff_exists.mp h
  by_contra hk
  rw [Bool.not_eq_false] at hk
  have := keysOk_iff.mp hk ("id", v) (mem_of_dlookup hv)
  simp [expectedAttrs] at this

/-- Under the 422 key check, a dict payload has at most 3 entries. -/
theorem length_le_three_of_keysOk {p : Dict}
    (hnd : (keysOf p).Nodup) (hk : keysOk p = true) : p.length ≤ 3 := by
  have hsub : (keysOf p).toFinset ⊆ ({"name", "capital", "area"} : Finset String) := by
    intro k hkmem
    rw [List.mem_toFinset] at hkmem
    obtain ⟨kv, hkv, rfl⟩ := List.mem_map.mp hkmem
    have := keysOk_iff.mp hk kv hkv
    simp [expectedAttrs] at this
    rcases this with h | h | h <;> simp [h]
  have hcard : (keysOf p).toFinset.card = p.length := by
    rw [List.toFinset_card_of_nodup hnd]
    simp [keysOf]
  have := Finset.card_le_card hsub
  rw [hcard] at this
  simpa using this

/-- Pigeonhole at the heart of the count check: 3 distinct keys all drawn
from `{name, capital, area}` are exactly that set. -/
theorem keys_exact_of_count {p : Dict}
    (hnd : (keysOf p).Nodup) (hk : keysOk p = true) (hlen : p.length = 3) :
    (keysOf p).toFinset = ({"name", "capital", "area"} : Finset String) := by
  have hsub : (keysOf p).toFinset ⊆ ({"name", "capital", "area"} : Finset String) := by
    intro k hkmem
    rw [List.mem_toFinset] at hkmem
    obtain ⟨kv, hkv, rfl⟩ := List.mem_map.mp hkmem
    have := keysOk_iff.mp hk kv hkv
    simp [expectedAttrs] at this
    rcases this with h | h | h <;> simp [h]
  refine Finset.eq_of_subset_of_card_le hsub ?_
  have hcard : (keysOf p).toFinset.card = p.length := by
    rw [List.toFinset_card_of_nodup hnd]
    simp [keysOf]
  rw [hcard, hlen]
  decide

theorem dlookup_dictSet_self (r : Dict) (k : String) (v : Value) :
    dlookup (dictSet r k v) k = some v := by
  induction r with
  | nil => simp [dictSet, dlookup]
  | cons kv rest ih =>
    obtain ⟨k', v'⟩ := kv
    by_cases hk : k' = k
    · subst hk; simp [dictSet, dlookup]
    · simp [dictSet, dlookup, hk, ih]

theorem dlookup_dictSet_ne (r : Dict) (k : String) (v : Value) {k' : String}
    (h : k' ≠ k) : dlookup (dictSet r k v) k' = dlookup r k' := by
  induction r with
  | nil =>
    have : k ≠ k' := fun hh => h hh.symm
    simp [dictSet, dlookup, this]
  | cons kv rest ih =>
    obtain ⟨k₀, v₀⟩ := kv
    by_cases hk : k₀ = k
    · subst hk
      have : k₀ ≠ k' := fun hh => h hh.symm
      simp [dictSet, dlookup, this]
    · by_cases hk' : k₀ = k'
      · subst hk'; simp [dictSet, dlookup, hk]
      · simp [dictSet, dlookup, hk, hk', ih]

/-- The in-place merge never touches a key absent from the payload. -/
theorem dlookup_applyPayload (r : Dict) (p : Dict) {k : String}
    (h : ∀ kv ∈ p, kv.1 ≠ k) :
    dlookup (applyPayload r p) k = dlookup r k := by
  induction p generalizing r with
  | nil => rfl
  | cons kv rest ih =>
    have hstep : dlookup (dictSet r kv.1 kv.2) k = dlookup r k :=
      dlookup_dictSet_ne r kv.1 kv.2
        (fun hh => h kv (List.mem_cons_self _ _) hh.symm)
    have := ih (dictSet r kv.1 kv.2) (fun kv' hkv' => h kv' (List.mem_cons_of_mem _ hkv'))
    simpa [applyPayload, hstep] using this

theorem dlookup_applyPayload_id (r : Dict) {p : Dict} (hk : keysOk p = true) :
    dlookup (applyPayload r p) "id" = dlookup r "id" := by
  refine dlookup_applyPayload r p ?_
  intro kv hkv hid
  have := keysOk_iff.mp hk kv hkv
  rw [hid] at this
  simp [expectedAttrs] at this

end Helpers

section ScanHelpers

theorem scanId_cons_none {r : Dict} {rest : Store} {pid : Int}
    (hr : dlookup r "id" = none) :
    scanId (r :: rest) pid = ScanRes.keyError := by
  rw [scanId, hr]

theorem scanId_cons_hit {r : Dict} {rest : Store} {pid : Int}
    (hr : dlookup r "id" = some (Value.num pid)) :
    scanId (r :: rest) pid = ScanRes.found 0 := by
  rw [scanId, hr]
  simp

theorem scanId_cons_skip {r : Dict} {rest : Store} {pid : Int} {v : Value}
    (hr : dlookup r "id" = some v) (hv : v ≠ Value.num pid) :
    scanId (r :: rest) pid =
      match scanId rest pid with
      | ScanRes.found i => ScanRes.found (i + 1)
      | ScanRes.notFound => ScanRes.notFound
      | ScanRes.keyError => ScanRes.keyError := by
  rw [scanId, hr]
  simp [hv]

theorem scanId_found_lt {s : Store} {pid : Int} {i : Nat}
    (h : scanId s pid = ScanRes.found i) : i < s.length := by
  induction s generalizing i with
  | nil => cases h
  | cons r rest ih =>
    match hr : dlookup r "id" with
    | none => rw [scanId_cons_none hr] at h; cases h
    | some v =>
      by_cases hv : v = Value.num pid
      · subst hv
        rw [scanId_cons_hit hr] at h
        cases h
        simp
      · rw [scanId_cons_skip hr hv] at h
        match hs : scanId rest pid with
        | .found i' =>
          rw [hs] at h
          cases h
          have := ih hs
          simpa using Nat.succ_lt_succ this
        | .notFound => rw [hs] at h; cases h
        | .keyError => rw [hs] at h; cases h

/-- The scan finds the first matching record: the record at the found index
matches and no earlier record does. -/
theorem scanId_found_first {s : Store} {pid : Int} {i : Nat}
    (h : scanId s pid = ScanRes.found i) :
    matchesId pid (s.getD i []) = true ∧
      ∀ j, j < i → matchesId pid (s.getD j []) = false := by
  induction s generalizing i with
  | nil => cases h
  | cons r rest ih =>
    match hr : dlookup r "id" with
    | none => rw [scanId_cons_none hr] at h; cases h
    | some v =>
      by_cases hv : v = Value.num pid
      · subst hv
        rw [scanId_cons_hit hr] at h
        cases h
        constructor
        · simp [matchesId, hr]
        · intro j hj; cases hj
      · rw [scanId_cons_skip hr hv] at h
        match hs : scanId rest pid with
        | .found i' =>
          rw [hs] at h
          cases h
          obtain ⟨h1, h2⟩ := ih hs
          refine ⟨by simpa using h1, ?_⟩
          intro j hj
          match j with
          | 0 =>
            simp [matchesId, hr]
            intro hcontra
            exact hv (by cases hcontra; rfl)
          | j' + 1 =>
            have := h2 j' (Nat.lt_of_succ_lt_succ hj)
            simpa using this
        | .notFound => rw [hs] at h; cases h
        | .keyError => rw [hs] at h; cases h

/-- When every record carries an `"id"` key and none matches, the scan
reports not-found (no KeyError is raised). -/
theorem scanId_notFound_of_count_zero {s : Store} {pid : Int}
    (hid : ∀ r ∈ s, (dlookup r "id").isSome = true)
    (h0 : s.countP (matchesId pid) = 0) : scanId s pid = ScanRes.notFound := by
  induction s with
  | nil => rfl
  | cons r rest ih =>
    have hr := hid r (List.mem_cons_self _ _)
    obtain ⟨v, hv⟩ := Option.isSome_iff_exists.mp hr
    have hrm : matchesId pid r = false := by
      have := List.countP_eq_zero.mp h0 r (List.mem_cons_self _ _)
      simpa using this
    have hvne : v ≠ Value.num pid := by
      intro hcontra
      subst hcontra
      simp [matchesId, hv] at hrm
    have hrest0 : rest.countP (matchesId pid) = 0 := by
      rw [List.countP_cons_of_neg] at h0
      · exact h0
      · simp [hrm]
    have := ih (fun r' hr' => hid r' (List.mem_cons_of_mem _ hr')) hrest0
    rw [scanId_cons_skip hv hvne, this]

/-- When every record carries an `"id"` key and exactly one matches, the
scan finds an index and the store with that index removed has no match
left. -/
theorem scanId_found_of_count_one {s : Store} {pid : Int}
    (hid : ∀ r ∈ s, (dlookup r "id").isSome = true)
    (h1 : s.countP (matchesId pid) = 1) :
    ∃ i, scanId s pid = ScanRes.found i ∧
      (s.eraseIdx i).countP (matchesId pid) = 0 := by
  induction s with
  | nil => simp at h1
  | cons r rest ih =>
    have hr := hid r (List.mem_cons_self _ _)
    obtain ⟨v, hv⟩ := Option.isSome_iff_exists.mp hr
    by_cases hm : matchesId pid r = true
    · have hveq : v = Value.num pid := by
        simp [matchesId, hv] at hm
        exact hm
      have hrest0 : rest.countP (matchesId pid) = 0 := by
        rw [List.countP_cons_of_pos _ _ hm] at h1
        omega
      refine ⟨0, ?_, ?_⟩
      · subst hveq
        exact scanId_cons_hit hv
      · simpa [List.eraseIdx] using hrest0
    · have hm' : matchesId pid r = false := by
        simpa using hm
      have hvne : v ≠ Value.num pid := by
        intro hcontra
        subst hcontra
        simp [matchesId, hv] at hm'
      have hrest1 : rest.countP (matchesId pid) = 1 := by
        rw [List.countP_cons_of_neg _ _ (by simp [hm'])] at h1
        exact h1
      obtain ⟨i, hsi, hcount⟩ := ih (fun r' hr' => hid r' (List.mem_cons_of_mem _ hr')) hrest1
      refine ⟨i + 1, ?_, ?_⟩
      · rw [scanId_cons_skip hv hvne, hsi]
      · rw [List.eraseIdx_cons_succ, List.countP_cons_of_neg _ _ (by simp [hm'])]
        exact hcount

end ScanHelpers

section IdHelpers

theorem maxAll_ge {x : Int} {ys : List Int} :
    x ≤ maxAll x ys ∧ ∀ y ∈ ys, y ≤ maxAll x ys := by
  induction ys generalizing x with
  | nil => simp [maxAll]
  | cons y ys ih =>
    obtain ⟨h1, h2⟩ := @ih (max x y)
    refine ⟨le_trans (le_max_left x y) h1, ?_⟩
    intro z hz
    rcases List.mem_cons.mp hz with h | hz'
    · rw [h]
      exact le_trans (le_max_right x y) h1
    · exact h2 z hz'

theorem idsOf?_eq_some {s : Store}
    (h : ∀ r ∈ s, ∃ n : Int, dlookup r "id" = some (Value.num n)) :
    ∃ ids, idsOf? s = some ids ∧ ids.length = s.length := by
  induction s with
  | nil => exact ⟨[], rfl, rfl⟩
  | cons r rest ih =>
    obtain ⟨n, hn⟩ := h r (List.mem_cons_self _ _)
    obtain ⟨ids, hids, hlen⟩ := ih (fun r' hr' => h r' (List.mem_cons_of_mem _ hr'))
    refine ⟨n :: ids, ?_, by simp [hlen]⟩
    rw [idsOf?, hn, hids]

theorem filterMap_recIdInt_of_idsOf? {s : Store} {ids : List Int}
    (h : idsOf? s = some ids) : s.filterMap recIdInt = ids := by
  induction s generalizing ids with
  | nil =>
    rw [idsOf?] at h
    cases h
    rfl
  | cons r rest ih =>
    rw [idsOf?] at h
    match hr : dlookup r "id", hrest : idsOf? rest with
    | some (Value.num n), some ns =>
      rw [hr, hrest] at h
      cases h
      have hrec : recIdInt r = some n := by rw [recIdInt, hr]
      rw [List.filterMap_cons, hrec, ih hrest]
    | some (Value.num n), none => rw [hr, hrest] at h; cases h
    | some (Value.str a), _ => rw [hr] at h; cases h
    | none, _ => rw [hr] at h; cases h

theorem idsOf?_append_single {s : Store} {ids : List Int} {c : Dict} {n : Int}
    (h : idsOf? s = some ids) (hc : dlookup c "id" = some (Value.num n)) :
    idsOf? (s ++ [c]) = some (ids ++ [n]) := by
  induction s generalizing ids with
  | nil =>
    rw [idsOf?] at h
    cases h
    simp [idsOf?, hc]
  | cons r rest ih =>
    rw [idsOf?] at h
    match hr : dlookup r "id", hrest : idsOf? rest with
    | some (Value.num m), some ns =>
      rw [hr, hrest] at h
      cases h
      have := ih hrest
      rw [List.cons_append, idsOf?, hr, this]
      rfl
    | some (Value.num m), none => rw [hr, hrest] at h; cases h
    | some (Value.str a), _ => rw [hr] at h; cases h
    | none, _ => rw [hr] at h; cases h

theorem filterMap_set_eq {l : Store} {i : Nat} {a : Dict}
    (h : i < l.length) (hf : recIdInt a = recIdInt (l.getD i [])) :
    (l.set i a).filterMap recIdInt = l.filterMap recIdInt := by
  induction l generalizing i with
  | nil => simp at h
  | cons r rest ih =>
    match i with
    | 0 =>
      simp only [List.getD_cons_zero] at hf
      simp [List.filterMap_cons, hf]
    | i' + 1 =>
      have hlt : i' < rest.length := by simpa using Nat.lt_of_succ_lt_succ h
      have hf' : recIdInt a = recIdInt (rest.getD i' []) := by
        simpa using hf
      simp [List.filterMap_cons, ih hlt hf']

theorem getD_set_ne {l : Store} {i j : Nat} {a : Dict} (h : j ≠ i) :
    (l.set i a).getD j [] = l.getD j [] := by
  rw [List.getD_eq_getElem?_getD, List.getD_eq_getElem?_getD,
    List.getElem?_set_ne (fun hh => h hh.symm)]

end IdHelpers

section InversionHelpers

theorem idsOf?_cons_of_WF {store : Store} (hwf : WFStore store) :
    ∃ x xs, idsOf? store = some (x :: xs) := by
  obtain ⟨hne, _, hids⟩ := hwf
  obtain ⟨ids, hids2, hlen⟩ := idsOf?_eq_some hids
  match store, hne with
  | r :: rest, _ =>
    match ids, hlen with
    | x :: xs, _ => exact ⟨x, xs, hids2⟩

theorem find_next_id_of_WF {store : Store} (hwf : WFStore store) :
    _find_next_id store = some (maxId store + 1) := by
  obtain ⟨x, xs, hids⟩ := idsOf?_cons_of_WF hwf
  rw [_find_next_id, maxId, hids]

theorem add_ok_inversion {store : Store} {p c : Dict} {st' : Store}
    (h : add_country store p = HResp.ok 201 c st') :
    schemaOk p = true ∧ keysOk p = true ∧
      ∃ nid, _find_next_id store = some nid ∧
        c = dictSet p "id" (Value.num nid) ∧ st' = store ++ [c] := by
  rw [add_country.eq_def] at h
  split at h
  case isFalse => simp at h
  case isTrue hschema =>
    split at h
    case isFalse => simp at h
    case isTrue hk =>
      split at h
      · simp at h
      · split at h
        · simp at h
        · split at h
          · simp at h
          next nid hfind =>
            simp only [HResp.ok.injEq] at h
            obtain ⟨-, hc, hst⟩ := h
            exact ⟨hschema, hk, nid, hfind, hc.symm, by rw [← hst, ← hc]⟩

theorem put_ok_inversion {store : Store} {pid : Int} {p b : Dict} {st' : Store}
    (h : put_country store pid p = HResp.ok 200 b st') :
    keysOk p = true ∧
      ∃ i, scanId store pid = ScanRes.found i ∧
        b = applyPayload (store.getD i []) p ∧ st' = store.set i b := by
  rw [put_country.eq_def] at h
  split at h
  case isFalse => simp at h
  case isTrue hk =>
    split at h
    · simp at h
    · split at h
      · simp at h
      · split at h
        next i hscan =>
          simp only [HResp.ok.injEq] at h
          obtain ⟨-, hb, hst⟩ := h
          exact ⟨hk, i, hscan, hb.symm, by rw [← hst, ← hb]⟩
        · simp at h
        · simp at h

theorem patch_ok_inversion {store : Store} {pid : Int} {p b : Dict} {st' : Store}
    (h : patch_country store pid p = HResp.ok 200 b st') :
    keysOk p = true ∧
      ∃ i, scanId store pid = ScanRes.found i ∧
        b = applyPayload (store.getD i []) p ∧ st' = store.set i b := by
  rw [patch_country.eq_def] at h
  split at h
  case isFalse => simp at h
  case isTrue hk =>
    split at h
    · simp at h
    · split at h
      · simp at h
      · split at h
        next i hscan =>
          simp only [HResp.ok.injEq] at h
          obtain ⟨-, hb, hst⟩ := h
          exact ⟨hk, i, hscan, hb.symm, by rw [← hst, ← hb]⟩
        · simp at h
        · simp at h

theorem delete_ok_inversion {store : Store} {pid : Int} {b : Dict} {st' : Store}
    (h : delete_country store pid = HResp.ok 204 b st') :
    ∃ i, scanId store pid = ScanRes.found i ∧ b = [] ∧ st' = store.eraseIdx i := by
  rw [delete_country.eq_def] at h
  split at h
  next i hscan =>
    simp only [HResp.ok.injEq] at h
    obtain ⟨-, hb, hst⟩ := h
    exact ⟨i, hscan, hb.symm, hst.symm⟩
  · simp at h
  · simp at h

theorem add_err_store {store : Store} {p : Dict} {s : Nat} {st' : Store}
    (h : add_country store p = HResp.err s st') : st' = store := by
  rw [add_country.eq_def] at h
  repeat' split at h
  all_goals first
  | (cases h; rfl)
  | simp at h

theorem put_err_store {store : Store} {pid : Int} {p : Dict} {s : Nat} {st' : Store}
    (h : put_country store pid p = HResp.err s st') : st' = store := by
  rw [put_country.eq_def] at h
  repeat' split at h
  all_goals first
  | (cases h; rfl)
  | simp at h

theorem patch_err_store {store : Store} {pid : Int} {p : Dict} {s : Nat} {st' : Store}
    (h : patch_country store pid p = HResp.err s st') : st' = store := by
  rw [patch_country.eq_def] at h
  repeat' split at h
  all_goals first
  | (cases h; rfl)
  | simp at h

theorem delete_err_store {store : Store} {pid : Int} {s : Nat} {st' : Store}
    (h : delete_country store pid = HResp.err s st') : st' = store := by
  rw [delete_country.eq_def] at h
  repeat' split at h
  all_goals first
  | (cases h; rfl)
  | simp at h

end InversionHelpers

/-- C9: for every store with at least 2 elements, `GET /country` returns
200 with exactly the record at index 1 of the store, independent of any
request parameter. -/
theorem c9_get_country_second (store : Store) (h : 2 ≤ store.length) :
    get_country store = HResp.ok 200 (store.getD 1 []) store := by
  match store with
  | [] => simp at h
  | [r] => simp at h
  | r0 :: r1 :: rest => rfl

/-- C9 witness: on the seed store, `GET /country` returns Australia. -/
theorem c9_get_country_witness :
    2 ≤ seedCountries.length ∧
      get_country seedCountries = HResp.ok 200 (seedCountries.getD 1 []) seedCountries :=
  ⟨by decide, c9_get_country_second seedCountries (by decide)⟩

/-- C7: any PATCH whose payload contains a key outside
`{name, capital, area}` is rejected with 422, whatever the other fields,
the store, and the requested id. -/
theorem c7_patch_unknown_key (store : Store) (pid : Int) (p : Dict)
    (h : ∃ kv ∈ p, kv.1 ∉ expectedAttrs) :
    patch_country store pid p = HResp.err 422 store := by
  obtain ⟨kv, hkv, hbad⟩ := h
  have hk : keysOk p = false := by
    by_contra hc
    rw [Bool.not_eq_false] at hc
    exact hbad (keysOk_iff.mp hc kv hkv)
  rw [patch_country.eq_def, hk]
  simp

/-- C7 witness: a PATCH carrying the unknown key `"id"` (alongside a valid
field) gets 422 on the seed store, even though id 1 exists. -/
theorem c7_patch_unknown_key_witness :
    patch_country seedCountries 1
      [("name", Value.str "X"), ("id", Value.num 9)] = HResp.err 422 seedCountries :=
  c7_patch_unknown_key seedCountries 1 _ ⟨("id", Value.num 9), by decide, by decide⟩

/-- C6 counterexample: the empty store is reachable by deleting the three
seed records, and on it a PUT whose payload has 2 recognized fields ends in
500 (an IndexError on `countries[0]`), not in the claimed 400. -/
theorem c6_put_empty_store_counterexample :
    delete_country seedCountries 1 = HResp.ok 204 [] (seedCountries.drop 1) ∧
    delete_country (seedCountries.drop 1) 2 = HResp.ok 204 [] (seedCountries.drop 2) ∧
    delete_country (seedCountries.drop 2) 3 = HResp.ok 204 [] [] ∧
    keysOk [("name", Value.str "X"), ("capital", Value.str "Y")] = true ∧
    ([("name", Value.str "X"), ("capital", Value.str "Y")] : Dict).length < 3 ∧
    put_country [] 7 [("name", Value.str "X"), ("capital", Value.str "Y")] =
      HResp.err 500 [] ∧
    HResp.err 500 ([] : Store) ≠ HResp.err 400 ([] : Store) := by
  refine ⟨by decide, by decide, by decide, by decide, by decide, by decide, by decide⟩

/-- C6 as amended: on a store that is non-empty (with the canonical 4-field
first record), every PUT whose payload has fewer than 3 recognized fields
is rejected with 400, whether or not the id exists; on the empty store such
a request ends in 500 instead. -/
theorem c6_put_few_fields_amended (store : Store) (pid : Int) (p : Dict)
    (hne : store ≠ []) (h4 : (store.headD []).length = 4)
    (hk : keysOk p = true) (hlen : p.length < 3) :
    put_country store pid p = HResp.err 400 store := by
  match store, hne with
  | r0 :: rest, _ =>
    have h40 : r0.length = 4 := by simpa using h4
    have hcond : p.length + 1 ≠ r0.length := by omega
    rw [put_country.eq_def, hk]
    simp [hcond]

/-- C6 witness: a one-field PUT to the existing id 1 and to the absent id 9
both get 400 on the seed store. -/
theorem c6_put_few_fields_witness :
    put_country seedCountries 1 [("name", Value.str "X")] = HResp.err 400 seedCountries ∧
    put_country seedCountries 9 [("name", Value.str "X")] = HResp.err 400 seedCountries :=
  ⟨c6_put_few_fields_amended seedCountries 1 _ (by decide) (by decide) (by decide) (by decide),
   c6_put_few_fields_amended seedCountries 9 _ (by decide) (by decide) (by decide) (by decide)⟩

/-- C3 counterexample: no payload with distinct keys can pass both the
422 key-membership check and an exactly-3 attribute count while having a
key set different from `{name, capital, area}` — the claimed permissive
payload does not exist. -/
theorem c3_three_keys_counterexample :
    ¬ ∃ p : Dict, (keysOf p).Nodup ∧ keysOk p = true ∧ p.length = 3 ∧
        (keysOf p).toFinset ≠ ({"name", "capital", "area"} : Finset String) := by
  rintro ⟨p, hnd, hk, hlen, hne⟩
  exact hne (keys_exact_of_count hnd hk hlen)

/-- C3 as amended: passing both the key-membership check and the exactly-3
count check forces the payload's key set to be exactly
`{name, capital, area}`. -/
theorem c3_three_keys_amended (p : Dict)
    (hnd : (keysOf p).Nodup) (hk : keysOk p = true) (hlen : p.length = 3) :
    (keysOf p).toFinset = ({"name", "capital", "area"} : Finset String) :=
  keys_exact_of_count hnd hk hlen

/-- C3 witness: the Germany payload passes both checks and its key set is
exactly the canonical one. -/
theorem c3_three_keys_witness :
    (keysOf germanyPayload).toFinset = ({"name", "capital", "area"} : Finset String) :=
  c3_three_keys_amended germanyPayload (by decide) (by decide) (by decide)

/-- C10: once a dict payload passes the 422 key check, it has at most 3
attributes, so on a store whose first record has the canonical 4 fields
(or on the empty store) the `len(payload) + 1 > len(countries[0].keys())`
branch of PATCH can never fire: PATCH never answers 400. -/
theorem c10_patch_no_400 (store : Store) (pid : Int) (p : Dict)
    (hnd : (keysOf p).Nodup) (hk : keysOk p = true)
    (h4 : store = [] ∨ (store.headD []).length = 4) :
    p.length ≤ 3 ∧ ∀ st', patch_country store pid p ≠ HResp.err 400 st' := by
  have hle := length_le_three_of_keysOk hnd hk
  refine ⟨hle, ?_⟩
  intro st' hcontra
  match store, h4 with
  | [], _ =>
    rw [patch_country.eq_def, hk] at hcontra
    simp at hcontra
  | r0 :: rest, h4 =>
    have h40 : r0.length = 4 := by
      rcases h4 with h | h
      · cases h
      · simpa using h
    have hcond : ¬ (p.length + 1 > r0.length) := by omega
    rw [patch_country.eq_def, hk] at hcontra
    simp only [if_true, if_neg hcond] at hcontra
    match hs : scanId (r0 :: rest) pid with
    | .found i => rw [hs] at hcontra; simp at hcontra
    | .notFound => rw [hs] at hcontra; simp at hcontra
    | .keyError => rw [hs] at hcontra; simp at hcontra

/-- C10 witness: a full 3-field PATCH on the seed store (id 1) does not
produce 400 (and indeed `3 ≤ 3`). -/
theorem c10_patch_no_400_witness :
    ([("name", Value.str "X"), ("capital", Value.str "Y"),
      ("area", Value.num 1)] : Dict).length ≤ 3 ∧
    ∀ st', patch_country seedCountries 1
      [("name", Value.str "X"), ("capital", Value.str "Y"), ("area", Value.num 1)] ≠
        HResp.err 400 st' :=
  c10_patch_no_400 seedCountries 1 _ (by decide) (by decide) (Or.inr (by decide))

/-- C5: every request that ends in an error response — 415 non-JSON body,
422 unknown key, 400 bad field count, 404 not found (and even the 500s of
the unhandled faults) — leaves the store exactly as it was: each handler
aborts before any mutation, with no partial application of a payload. -/
theorem c5_abort_preserves_store (store : Store) (pid : Int) (body : Option Dict) :
    (∀ s st', postReq store body = HResp.err s st' → st' = store) ∧
    (∀ s st', putReq store pid body = HResp.err s st' → st' = store) ∧
    (∀ s st', patchReq store pid body = HResp.err s st' → st' = store) ∧
    (∀ s st', delete_country store pid = HResp.err s st' → st' = store) := by
  refine ⟨?_, ?_, ?_, fun s st' h => delete_err_store h⟩
  · intro s st' h
    match body with
    | none => cases h; rfl
    | some p => exact add_err_store h
  · intro s st' h
    match body with
    | none => cases h; rfl
    | some p => exact put_err_store h
  · intro s st' h
    match body with
    | none => cases h; rfl
    | some p => exact patch_err_store h

/-- C5 witness: a DELETE of the absent id 99 errors (404) and the store it
reports is the seed store it started from. -/
theorem c5_abort_preserves_store_witness :
    delete_country seedCountries 99 = HResp.err 404 seedCountries ∧
      seedCountries = seedCountries :=
  ⟨by decide,
   (c5_abort_preserves_store seedCountries 99 none).2.2.2 404 seedCountries (by decide)⟩

/-- C8: a successful (200) PUT or PATCH touches exactly one record: the
store keeps its length, every record other than the matched one is
unchanged, and the matched record keeps its `"id"` field. -/
theorem c8_put_patch_frame (store : Store) (pid : Int) (p : Dict) :
    (∀ b st', put_country store pid p = HResp.ok 200 b st' →
       ∃ i, i < store.length ∧ st' = store.set i b ∧
         st'.length = store.length ∧
         dlookup b "id" = dlookup (store.getD i []) "id" ∧
         ∀ j, j ≠ i → st'.getD j [] = store.getD j []) ∧
    (∀ b st', patch_country store pid p = HResp.ok 200 b st' →
       ∃ i, i < store.length ∧ st' = store.set i b ∧
         st'.length = store.length ∧
         dlookup b "id" = dlookup (store.getD i []) "id" ∧
         ∀ j, j ≠ i → st'.getD j [] = store.getD j []) := by
  constructor
  · intro b st' h
    obtain ⟨hk, i, hscan, hb, hst⟩ := put_ok_inversion h
    refine ⟨i, scanId_found_lt hscan, hst, ?_, ?_, ?_⟩
    · rw [hst, List.length_set]
    · rw [hb]
      exact dlookup_applyPayload_id _ hk
    · intro j hj
      rw [hst]
      exact getD_set_ne hj
  · intro b st' h
    obtain ⟨hk, i, hscan, hb, hst⟩ := patch_ok_inversion h
    refine ⟨i, scanId_found_lt hscan, hst, ?_, ?_, ?_⟩
    · rw [hst, List.length_set]
    · rw [hb]
      exact dlookup_applyPayload_id _ hk
    · intro j hj
      rw [hst]
      exact getD_set_ne hj

/-- C8 witness: a concrete successful PATCH of record id 3 on the seed
store touches only index 2 and keeps its id. -/
theorem c8_put_patch_frame_witness :
    ∃ i, i < seedCountries.length ∧
      (seedCountries.set 2
        [("id", Value.num 3), ("name", Value.str "Egypt"),
         ("capital", Value.str "Giza"), ("area", Value.num 1010408)]) =
        seedCountries.set i
          [("id", Value.num 3), ("name", Value.str "Egypt"),
           ("capital", Value.str "Giza"), ("area", Value.num 1010408)] ∧
      (seedCountries.set 2
        [("id", Value.num 3), ("name", Value.str "Egypt"),
         ("capital", Value.str "Giza"), ("area", Value.num 1010408)]).length =
        seedCountries.length ∧
      dlookup
        [("id", Value.num 3), ("name", Value.str "Egypt"),
         ("capital", Value.str "Giza"), ("area", Value.num 1010408)] "id" =
        dlookup (seedCountries.getD i []) "id" ∧
      ∀ j, j ≠ i →
        (seedCountries.set 2
          [("id", Value.num 3), ("name", Value.str "Egypt"),
           ("capital", Value.str "Giza"), ("area", Value.num 1010408)]).getD j [] =
          seedCountries.getD j [] :=
  (c8_put_patch_frame seedCountries 3 [("capital", Value.str "Giza")]).2
    [("id", Value.num 3), ("name", Value.str "Egypt"),
     ("capital", Value.str "Giza"), ("area", Value.num 1010408)]
    (seedCountries.set 2
      [("id", Value.num 3), ("name", Value.str "Egypt"),
       ("capital", Value.str "Giza"), ("area", Value.num 1010408)])
    (by decide)

/-- C4: on a store whose records all carry an `"id"` key, a DELETE of an
id held by exactly one record removes exactly that first matching record
(leaving every other record in place), answers 204 with an empty body, and
a subsequent GET of that id answers 404; and a GET of an id held by no
record answers 404. -/
theorem c4_delete_then_get (store : Store) (pid : Int)
    (hid : ∀ r ∈ store, (dlookup r "id").isSome = true) :
    (store.countP (matchesId pid) = 1 →
       ∃ i, scanId store pid = ScanRes.found i ∧ i < store.length ∧
         matchesId pid (store.getD i []) = true ∧
         (∀ j, j < i → matchesId pid (store.getD j []) = false) ∧
         delete_country store pid = HResp.ok 204 [] (store.eraseIdx i) ∧
         store.eraseIdx i = store.take i ++ store.drop (i + 1) ∧
         (store.eraseIdx i).length + 1 = store.length ∧
         get_country_by_id (store.eraseIdx i) pid =
           HResp.err 404 (store.eraseIdx i)) ∧
    (store.countP (matchesId pid) = 0 →
       get_country_by_id store pid = HResp.err 404 store) := by
  constructor
  · intro h1
    obtain ⟨i, hscan, hcount0⟩ := scanId_found_of_count_one hid h1
    have hlt := scanId_found_lt hscan
    obtain ⟨hmatch, hfirst⟩ := scanId_found_first hscan
    have hiderase : ∀ r ∈ store.eraseIdx i, (dlookup r "id").isSome = true :=
      fun r hr => hid r ((List.eraseIdx_sublist store i).subset hr)
    have hscan404 := scanId_notFound_of_count_zero hiderase hcount0
    refine ⟨i, hscan, hlt, hmatch, hfirst, ?_,
      List.eraseIdx_eq_take_drop_succ store i, ?_, ?_⟩
    · rw [delete_country.eq_def, hscan]
    · rw [List.length_eraseIdx, if_pos hlt]
      omega
    · rw [get_country_by_id.eq_def, hscan404]
  · intro h0
    have hnf := scanId_notFound_of_count_zero hid h0
    rw [get_country_by_id.eq_def, hnf]

/-- C4 witness: deleting id 2 from the seed store returns 204 with an empty
body and removes exactly Australia; a GET of id 2 then (and a GET of the
absent id 99 on the seed store) answers 404. -/
theorem c4_delete_then_get_witness :
    (∃ i, scanId seedCountries 2 = ScanRes.found i ∧ i < seedCountries.length ∧
       matchesId 2 (seedCountries.getD i []) = true ∧
       (∀ j, j < i → matchesId 2 (seedCountries.getD j []) = false) ∧
       delete_country seedCountries 2 = HResp.ok 204 [] (seedCountries.eraseIdx i) ∧
       seedCountries.eraseIdx i =
         seedCountries.take i ++ seedCountries.drop (i + 1) ∧
       (seedCountries.eraseIdx i).length + 1 = seedCountries.length ∧
       get_country_by_id (seedCountries.eraseIdx i) 2 =
         HResp.err 404 (seedCountries.eraseIdx i)) ∧
    get_country_by_id seedCountries 99 = HResp.err 404 seedCountries :=
  ⟨(c4_delete_then_get seedCountries 2 (by decide)).1 (by decide),
   (c4_delete_then_get seedCountries 99 (by decide)).2 (by decide)⟩

/-- C1: on every well-formed non-empty store, a POST whose payload is
schema-valid with exactly the attributes `{name, capital, area}` answers
201, the created record's id is `max(existing ids) + 1` computed at call
time, the record is appended at the end of the store, and a subsequent
`GET /countries` returns the grown store. -/
theorem c1_post_appends_with_next_id (store : Store) (p : Dict)
    (hwf : WFStore store) (hnd : (keysOf p).Nodup)
    (hkeys : (keysOf p).toFinset = ({"name", "capital", "area"} : Finset String))
    (hschema : schemaOk p = true) :
    ∃ c, add_country store p = HResp.ok 201 c (store ++ [c]) ∧
      dlookup c "id" = some (Value.num (maxId store + 1)) ∧
      get_countries (store ++ [c]) = store ++ [c] ∧
      (store ++ [c]).length = store.length + 1 := by
  have hk : keysOk p = true := by
    rw [keysOk_iff]
    intro kv hkv
    have hmem : kv.1 ∈ (keysOf p).toFinset := by
      rw [List.mem_toFinset]
      exact List.mem_map.mpr ⟨kv, hkv, rfl⟩
    rw [hkeys] at hmem
    simp only [Finset.mem_insert, Finset.mem_singleton] at hmem
    rcases hmem with h | h | h <;> simp [expectedAttrs, h]
  have hlen : p.length = 3 := by
    have hcard := List.toFinset_card_of_nodup hnd
    rw [hkeys] at hcard
    have hc3 : ({"name", "capital", "area"} : Finset String).card = 3 := by decide
    rw [hc3] at hcard
    simpa [keysOf] using hcard.symm
  obtain ⟨hne, h4, hids⟩ := hwf
  have hfind : _find_next_id store = some (maxId store + 1) :=
    find_next_id_of_WF ⟨hne, h4, hids⟩
  match store, hne, h4, hfind with
  | r0 :: rest, _, h4, hfind =>
    have h40 : r0.length = 4 := by simpa using h4
    have hcond : ¬ (p.length + 1 ≠ r0.length) := by omega
    refine ⟨dictSet p "id" (Value.num (maxId (r0 :: rest) + 1)), ?_, ?_, rfl, by simp⟩
    · rw [add_country.eq_def, hschema, hk]
      simp only [if_true, if_neg hcond, hfind]
    · exact dlookup_dictSet_self p "id" _

/-- C1 witness: the spec's worked example — POSTing Germany to the seed
store yields 201 with id 4, and `GET /countries` then returns 4 records
ending with the Germany record. -/
theorem c1_post_witness :
    (∃ c, add_country seedCountries germanyPayload =
        HResp.ok 201 c (seedCountries ++ [c]) ∧
      dlookup c "id" = some (Value.num (maxId seedCountries + 1)) ∧
      get_countries (seedCountries ++ [c]) = seedCountries ++ [c] ∧
      (seedCountries ++ [c]).length = seedCountries.length + 1) ∧
    add_country seedCountries germanyPayload =
      HResp.ok 201 germanyRecord (seedCountries ++ [germanyRecord]) ∧
    maxId seedCountries + 1 = 4 ∧
    dlookup germanyRecord "id" = some (Value.num 4) ∧
    get_countries (seedCountries ++ [germanyRecord]) =
      seedCountries ++ [germanyRecord] ∧
    (seedCountries ++ [germanyRecord]).length = 4 ∧
    (seedCountries ++ [germanyRecord]).getLast? = some germanyRecord :=
  ⟨c1_post_appends_with_next_id seedCountries germanyPayload
      (by decide) (by decide) (by decide) (by decide),
   by decide, by decide, by decide, by decide, by decide, by decide⟩

/-- C2 counterexample: a POST payload containing the key `"id"` is not
always rejected with 422 — when it fails the JSON schema (here: no `name`
or `capital`), the `@expects_json` decorator rejects it with 400 before the
handler's 422 key check runs. -/
theorem c2_id_payload_counterexample :
    (dlookup [("id", Value.num 7)] "id").isSome = true ∧
    add_country seedCountries [("id", Value.num 7)] = HResp.err 400 seedCountries ∧
    HResp.err 400 seedCountries ≠ HResp.err 422 seedCountries := by
  refine ⟨by decide, by decide, by decide⟩

/-- C2 as amended: every operation preserves id uniqueness; a POST payload
containing `"id"` is always rejected — with 422 when it passes the schema
check, with 400 otherwise — and on success the stored id is the
server-allocated `max(existing ids) + 1`. -/
theorem c2_invariants_amended (store : Store)
    (hwf : WFStore store) (hu : idsUnique store) :
    (∀ p c st', add_country store p = HResp.ok 201 c st' →
       idsUnique st' ∧ dlookup c "id" = some (Value.num (maxId store + 1))) ∧
    (∀ pid p b st', put_country store pid p = HResp.ok 200 b st' → idsUnique st') ∧
    (∀ pid p b st', patch_country store pid p = HResp.ok 200 b st' → idsUnique st') ∧
    (∀ pid b st', delete_country store pid = HResp.ok 204 b st' → idsUnique st') ∧
    (∀ p, (dlookup p "id").isSome = true →
       (schemaOk p = true → add_country store p = HResp.err 422 store) ∧
       (schemaOk p = false → add_country store p = HResp.err 400 store)) := by
  obtain ⟨x, xs, hids⟩ := idsOf?_cons_of_WF hwf
  have hfm : store.filterMap recIdInt = x :: xs := filterMap_recIdInt_of_idsOf? hids
  have hma : maxId store = maxAll x xs := by rw [maxId, hids]
  refine ⟨?_, ?_, ?_, ?_, ?_⟩
  · intro p c st' h
    obtain ⟨hschema, hk, nid, hfind, hc, hst⟩ := add_ok_inversion h
    have hfind2 : _find_next_id store = some (maxId store + 1) :=
      find_next_id_of_WF hwf
    rw [hfind2] at hfind
    have hnid : maxId store + 1 = nid := Option.some.inj hfind
    have hcid : dlookup c "id" = some (Value.num nid) := by
      rw [hc]
      exact dlookup_dictSet_self p "id" _
    refine ⟨?_, by rw [hcid, hnid]⟩
    rw [hst]
    have happ := idsOf?_append_single hids hcid
    have hfm2 : (store ++ [c]).filterMap recIdInt = (x :: xs) ++ [nid] :=
      filterMap_recIdInt_of_idsOf? happ
    have hu' : (store.filterMap recIdInt).Nodup := hu
    unfold idsUnique
    rw [hfm2, List.nodup_append]
    refine ⟨by rw [← hfm]; exact hu', by simp, ?_⟩
    intro a ha hb
    obtain ⟨h1, h2⟩ := @maxAll_ge x xs
    have hle : a ≤ maxAll x xs := by
      rcases List.mem_cons.mp ha with h | h
      · rw [h]; exact h1
      · exact h2 a h
    have hb' : a = nid := by simpa using hb
    omega
  · intro pid p b st' h
    obtain ⟨hk, i, hscan, hb, hst⟩ := put_ok_inversion h
    have hlt := scanId_found_lt hscan
    have hdl : dlookup b "id" = dlookup (store.getD i []) "id" := by
      rw [hb]
      exact dlookup_applyPayload_id _ hk
    have hrec : recIdInt b = recIdInt (store.getD i []) := by
      simp only [recIdInt, hdl]
    have hu' : (store.filterMap recIdInt).Nodup := hu
    rw [hst]
    unfold idsUnique
    rw [filterMap_set_eq hlt hrec]
    exact hu'
  · intro pid p b st' h
    obtain ⟨hk, i, hscan, hb, hst⟩ := patch_ok_inversion h
    have hlt := scanId_found_lt hscan
    have hdl : dlookup b "id" = dlookup (store.getD i []) "id" := by
      rw [hb]
      exact dlookup_applyPayload_id _ hk
    have hrec : recIdInt b = recIdInt (store.getD i []) := by
      simp only [recIdInt, hdl]
    have hu' : (store.filterMap recIdInt).Nodup := hu
    rw [hst]
    unfold idsUnique
    rw [filterMap_set_eq hlt hrec]
    exact hu'
  · intro pid b st' h
    obtain ⟨i, hscan, hb, hst⟩ := delete_ok_inversion h
    have hu' : (store.filterMap recIdInt).Nodup := hu
    rw [hst]
    unfold idsUnique
    exact List.Nodup.sublist
      (List.Sublist.filterMap recIdInt (List.eraseIdx_sublist store i)) hu'
  · intro p hpid
    have hkf : keysOk p = false := keysOk_false_of_id hpid
    constructor
    · intro hs
      rw [add_country.eq_def, hs, hkf]
      simp
    · intro hs
      rw [add_country.eq_def, hs]
      simp

/-- C2 witness: on the seed store, a schema-valid POST payload carrying
`"id"` gets 422 and a schema-invalid one gets 400; in both cases nothing is
stored. -/
theorem c2_invariants_witness :
    add_country seedCountries
      [("name", Value.str "A"), ("capital", Value.str "B"), ("id", Value.num 7)] =
      HResp.err 422 seedCountries ∧
    add_country seedCountries [("id", Value.num 7)] = HResp.err 400 seedCountries :=
  ⟨((c2_invariants_amended seedCountries (by decide) (by decide)).2.2.2.2
      [("name", Value.str "A"), ("capital", Value.str "B"), ("id", Value.num 7)]
      (by decide)).1 (by decide),
   ((c2_invariants_amended seedCountries (by decide) (by decide)).2.2.2.2
      [("id", Value.num 7)] (by decide)).2 (by decide)⟩
